import Mathlib

/-!
Verification of the FacultyHub rating, ranking and recommendation engine.

The repository ships the React frontend (dashboard, rankings page, faculty
profile page); the ranking/recommendation computations live behind the
`/api/rankings` and `/api/recommendations` endpoints of the backend server,
which is not part of the shipped sources.  Definitions below are therefore of
two kinds: direct embeddings of the frontend code (mode-selection flags of
`StudentDashboard`, the star widget and submit guard of `FacultyProfile`, the
comment gating of `FacultyProfile`), and models of the missing backend engine
built from the specification (Ranker, Interest Matcher, compatibility
percentage, rating validation).  Scores are rational numbers.
-/

namespace FacultyHub

/-- The four fixed rating categories of the data model. -/
inductive Category where
  | overall
  | teaching
  | attendance
  | doubt_clarification
deriving DecidableEq, Repr

/-- Modelled from the spec: the Ranker is missing from the shipped sources.
Bias-corrected weighted score for a faculty with rating count `v` and mean `R`
in a category, corpus-wide global mean `C` and minimum-votes constant `m`:
`score = (v / (v + m)) * R + (m / (v + m)) * C`. -/
def weightedScore (v : ℕ) (R C m : ℚ) : ℚ :=
  ((v : ℚ) / ((v : ℚ) + m)) * R + (m / ((v : ℚ) + m)) * C

/-- Modelled from the spec: the fixed minimum-votes configuration constant
(the spec documents the example value 5). -/
def minVotes : ℚ := 5

/-- One ranking candidate: a faculty name together with its rating count and
mean in the category being ranked. -/
structure RankEntry where
  name : String
  count : ℕ
  mean : ℚ
deriving DecidableEq, Repr

/-- The two scoring methods of the ranking query surface. -/
inductive Method where
  | average
  | weighted
deriving DecidableEq, Repr

/-- Modelled from the spec: score of one candidate under the chosen method. -/
def methodScore (method : Method) (C m : ℚ) (e : RankEntry) : ℚ :=
  match method with
  | .average => e.mean
  | .weighted => weightedScore e.count e.mean C m

/-- Modelled from the spec: the sort key of the Ranker, lexicographic in
(score descending, rating count descending, name ascending). -/
def rankKey (method : Method) (C m : ℚ) (e : RankEntry) : Lex (ℚ × Lex (ℚ × String)) :=
  toLex (-(methodScore method C m e), toLex (-(e.count : ℚ), e.name))

/-- Candidate `a` sorts no later than candidate `b` in the ranking order. -/
def RankBefore (method : Method) (C m : ℚ) (a b : RankEntry) : Prop :=
  rankKey method C m a ≤ rankKey method C m b

instance (method : Method) (C m : ℚ) : DecidableRel (RankBefore method C m) :=
  fun a b => inferInstanceAs (Decidable (rankKey method C m a ≤ rankKey method C m b))

instance (method : Method) (C m : ℚ) : IsTotal RankEntry (RankBefore method C m) :=
  ⟨fun a b => le_total (rankKey method C m a) (rankKey method C m b)⟩

instance (method : Method) (C m : ℚ) : IsTrans RankEntry (RankBefore method C m) :=
  ⟨fun _ _ _ hab hbc => le_trans hab hbc⟩

/-- One row of the ranking output: 1-based rank, the candidate, its score. -/
structure RankedRow where
  rank : ℕ
  entry : RankEntry
  score : ℚ
deriving DecidableEq, Repr

/-- Modelled from the spec: the full ranking query.  Candidates with zero
ratings in the category are excluded, the rest are sorted by the documented
order, and each position receives a dense 1-based rank. -/
def rankFaculty (method : Method) (C m : ℚ) (entries : List RankEntry) : List RankedRow :=
  (((entries.filter fun e => decide (0 < e.count)).insertionSort
      (RankBefore method C m)).enum).map
    fun p => ⟨p.1 + 1, p.2, methodScore method C m p.2⟩

/-- The documented tie-break chain between two candidates: strictly greater
score, or equal score and strictly more ratings, or equal score and count and
name no later alphabetically. -/
def tieBreakRel (method : Method) (C m : ℚ) (a b : RankEntry) : Prop :=
  methodScore method C m b < methodScore method C m a ∨
    (methodScore method C m a = methodScore method C m b ∧
      (b.count < a.count ∨ (a.count = b.count ∧ a.name ≤ b.name)))

theorem rankBefore_tieBreak {method : Method} {C m : ℚ} {a b : RankEntry}
    (h : RankBefore method C m a b) : tieBreakRel method C m a b := by
  unfold RankBefore rankKey at h
  rcases (Prod.Lex.le_iff _ _).mp h with h1 | ⟨h1, h2⟩
  · exact Or.inl (by simpa using neg_lt_neg_iff.mp h1)
  · refine Or.inr ⟨neg_inj.mp h1, ?_⟩
    rcases (Prod.Lex.le_iff _ _).mp h2 with h3 | ⟨h3, h4⟩
    · exact Or.inl (by exact_mod_cast neg_lt_neg_iff.mp h3)
    · exact Or.inr ⟨by exact_mod_cast neg_inj.mp h3, h4⟩

/-- C1: the weighted-method score of a faculty with rating count `v` and mean
`R`, given global mean `C` and minimum-votes constant `m`, equals
`(v / (v + m)) * R + (m / (v + m)) * C`; with `m = 5` and `C = 3.5`, a faculty
with overall ratings `[5,5]` (count 2, mean 5) scores `(2/7)*5 + (5/7)*3.5`, a
faculty with overall ratings `[5]` (count 1, mean 5) scores
`(1/6)*5 + (5/6)*3.5`, and the first ranks above the second. -/
theorem weighted_score_formula_and_ranking_scenario :
    (∀ (v : ℕ) (R C m : ℚ),
        weightedScore v R C m = ((v : ℚ) / ((v : ℚ) + m)) * R + (m / ((v : ℚ) + m)) * C) ∧
    (∀ (C m : ℚ) (e : RankEntry),
        methodScore .weighted C m e = weightedScore e.count e.mean C m) ∧
    weightedScore 2 5 (7/2) minVotes = (2/7) * 5 + (5/7) * (7/2) ∧
    weightedScore 1 5 (7/2) minVotes = (1/6) * 5 + (5/6) * (7/2) ∧
    weightedScore 1 5 (7/2) minVotes < weightedScore 2 5 (7/2) minVotes ∧
    (rankFaculty .weighted (7/2) minVotes [⟨"B", 1, 5⟩, ⟨"A", 2, 5⟩]).map
        (fun r => (r.rank, r.entry.name, r.score))
      = [(1, "A", (2/7) * 5 + (5/7) * (7/2)), (2, "B", (1/6) * 5 + (5/6) * (7/2))] := by
  refine ⟨fun v R C m => rfl, fun C m e => rfl, ?_, ?_, ?_, ?_⟩
  · norm_num [weightedScore, minVotes]
  · norm_num [weightedScore, minVotes]
  · norm_num [weightedScore, minVotes]
  · have h1 : ¬ RankBefore .weighted (7/2) minVotes ⟨"B", 1, 5⟩ ⟨"A", 2, 5⟩ := by
      norm_num [RankBefore, rankKey, Prod.Lex.le_iff, methodScore, weightedScore, minVotes]
    simp [rankFaculty, List.insertionSort, List.orderedInsert, h1, List.enum]
    norm_num [methodScore, weightedScore, minVotes]

/-- C2: every ranking query output is sorted by score descending with ties
broken by category rating count descending and then faculty name ascending,
each row carries the score of its candidate under the chosen method, and the
positions carry dense 1-based ranks `1, 2, ...` with no rank repeated. -/
theorem ranking_total_order (method : Method) (C m : ℚ) (entries : List RankEntry) :
    (rankFaculty method C m entries).map RankedRow.rank
        = List.range' 1 (rankFaculty method C m entries).length ∧
    ((rankFaculty method C m entries).map RankedRow.rank).Nodup ∧
    (rankFaculty method C m entries).map RankedRow.score
        = (rankFaculty method C m entries).map (fun r => methodScore method C m r.entry) ∧
    List.Pairwise (fun r s => tieBreakRel method C m r.entry s.entry)
      (rankFaculty method C m entries) := by
  have hranks : (rankFaculty method C m entries).map RankedRow.rank
      = List.range' 1 (rankFaculty method C m entries).length := by
    simp only [rankFaculty, List.map_map, List.length_map, List.enum_length]
    have h1 : (RankedRow.rank ∘ fun p : ℕ × RankEntry =>
        (⟨p.1 + 1, p.2, methodScore method C m p.2⟩ : RankedRow))
        = (fun i => i + 1) ∘ Prod.fst := rfl
    rw [h1, ← List.map_map, List.enum_map_fst, List.range'_eq_map_range]
    exact List.map_congr_left fun i _ => Nat.add_comm i 1
  refine ⟨hranks, ?_, ?_, ?_⟩
  · rw [hranks]; exact List.nodup_range' _ _
  · simp [rankFaculty, List.map_map]
  · have hsorted : List.Sorted (RankBefore method C m)
        ((entries.filter fun e => decide (0 < e.count)).insertionSort
          (RankBefore method C m)) :=
      List.sorted_insertionSort _ _
    have henum : List.Pairwise
        (fun p q : ℕ × RankEntry => RankBefore method C m p.2 q.2)
        ((entries.filter fun e => decide (0 < e.count)).insertionSort
          (RankBefore method C m)).enum := by
      have hmap := (List.pairwise_map
        (l := ((entries.filter fun e => decide (0 < e.count)).insertionSort
          (RankBefore method C m)).enum)
        (f := Prod.snd) (R := RankBefore method C m))
      rw [List.enum_map_snd] at hmap
      exact hmap.mp hsorted
    rw [rankFaculty, List.pairwise_map]
    exact henum.imp fun h => rankBefore_tieBreak h

/-- C3: a faculty member with zero ratings in the requested category never
appears in the ranking output for that category, under either method: every
output row has a strictly positive rating count. -/
theorem ranking_excludes_zero_count (method : Method) (C m : ℚ) (entries : List RankEntry) :
    (rankFaculty method C m entries).all (fun row => row.entry.count != 0) = true := by
  rw [List.all_eq_true]
  intro row hrow
  simp only [rankFaculty, List.mem_map] at hrow
  obtain ⟨p, hp, rfl⟩ := hrow
  have hsnd : p.2 ∈ (entries.filter fun e => decide (0 < e.count)).insertionSort
      (RankBefore method C m) := by
    have hmm := List.mem_map_of_mem Prod.snd hp
    rwa [List.enum_map_snd] at hmm
  have hmem : p.2 ∈ entries.filter fun e => decide (0 < e.count) :=
    (List.perm_insertionSort _ _).mem_iff.mp hsnd
  have hpos : 0 < p.2.count := by simpa using (List.mem_filter.mp hmem).2
  simpa [bne_iff_ne] using hpos.ne'

theorem weightedScore_closed (v : ℕ) (R C m : ℚ) (hm : 0 < m) :
    weightedScore v R C m = C + ((v : ℚ) / ((v : ℚ) + m)) * (R - C) := by
  have hv : (0 : ℚ) ≤ (v : ℚ) := Nat.cast_nonneg v
  have hvm : ((v : ℚ) + m) ≠ 0 := ne_of_gt (by positivity)
  rw [weightedScore]
  field_simp
  ring

/-- C6: with a fixed mean `R` strictly above the global mean `C` and a
positive minimum-votes constant `m`, the weighted score is strictly
increasing in the rating count `v`, converges to `R` as `v → ∞` (for every
positive `ε` it is eventually within `ε` of `R`), and equals `C` at `v = 0`. -/
theorem weighted_score_monotone_and_limits (R C m : ℚ) (hm : 0 < m) (hCR : C < R) :
    (∀ v w : ℕ, v < w → weightedScore v R C m < weightedScore w R C m) ∧
    (∀ ε : ℚ, 0 < ε → ∃ N : ℕ, ∀ v : ℕ, N ≤ v → |weightedScore v R C m - R| < ε) ∧
    weightedScore 0 R C m = C := by
  have hRC : 0 < R - C := sub_pos.mpr hCR
  refine ⟨?_, ?_, ?_⟩
  · intro v w hvw
    rw [weightedScore_closed v R C m hm, weightedScore_closed w R C m hm]
    have hv : (0 : ℚ) ≤ (v : ℚ) := Nat.cast_nonneg v
    have hw : (0 : ℚ) ≤ (w : ℚ) := Nat.cast_nonneg w
    have hfrac : (v : ℚ) / ((v : ℚ) + m) < (w : ℚ) / ((w : ℚ) + m) := by
      rw [div_lt_div_iff₀ (by positivity) (by positivity)]
      have hvw' : (v : ℚ) < (w : ℚ) := by exact_mod_cast hvw
      nlinarith [hvw', hm]
    exact add_lt_add_left (mul_lt_mul_of_pos_right hfrac hRC) C
  · intro ε hε
    obtain ⟨N, hN⟩ := exists_nat_gt ((R - C) * m / ε)
    refine ⟨N, fun v hv => ?_⟩
    have hv0 : (0 : ℚ) ≤ (v : ℚ) := Nat.cast_nonneg v
    have hvm : (0 : ℚ) < (v : ℚ) + m := by positivity
    have hval : weightedScore v R C m - R = -((R - C) * m / ((v : ℚ) + m)) := by
      rw [weightedScore_closed v R C m hm]
      field_simp
      ring
    rw [hval, abs_neg, abs_of_pos (by positivity), div_lt_iff₀ hvm]
    have h2 : (R - C) * m < ε * (N : ℚ) := by
      rw [div_lt_iff₀ hε] at hN
      linarith [hN]
    have h3 : (N : ℚ) ≤ (v : ℚ) := by exact_mod_cast hv
    nlinarith [h2, h3, hm, hε]
  · have hm0 : m ≠ 0 := hm.ne'
    rw [weightedScore]
    push_cast
    rw [zero_add, zero_div, zero_mul, zero_add, div_self hm0, one_mul]

/-- Witness for C6 at `R = 5`, `C = 7/2`, `m = 5`. -/
theorem weighted_score_monotone_and_limits_witness :
    (0 : ℚ) < 5 ∧ (7/2 : ℚ) < 5 ∧ weightedScore 0 5 (7/2) 5 = 7/2 :=
  ⟨by norm_num, by norm_num,
    (weighted_score_monotone_and_limits 5 (7/2) 5 (by norm_num) (by norm_num)).2.2⟩

/-- Modelled from the spec: the Recommender is missing from the shipped
sources.  Per-category compatibility contribution in rating-preference mode:
`(weighted score in that category - 1) / 4 * 100`. -/
def categoryCompat (w : ℚ) : ℚ := (w - 1) / 4 * 100

/-- Modelled from the spec: clamp a percentage to the interval [0, 100]. -/
def clampPct (x : ℚ) : ℚ := min 100 (max 0 x)

/-- Arithmetic mean of a list of rationals (0 on the empty list; the
Recommender never takes the mean of an empty selection, see C5). -/
def meanList (xs : List ℚ) : ℚ := xs.sum / xs.length

/-- Modelled from the spec: compatibility percentage of one faculty in
rating-preference mode, from the weighted scores of the selected categories
the faculty has data for (a faculty with data for none is excluded upstream,
so the list is nonempty). -/
def compatibilityPercentage (ws : List ℚ) : ℚ :=
  clampPct (meanList (ws.map categoryCompat))

theorem meanList_const (xs : List ℚ) (c : ℚ) (hne : xs ≠ []) (h : ∀ x ∈ xs, x = c) :
    meanList xs = c := by
  have h0 : xs.length ≠ 0 := by simpa [List.length_eq_zero] using hne
  have hlen : (xs.length : ℚ) ≠ 0 := Nat.cast_ne_zero.mpr h0
  rw [meanList, List.sum_eq_card_nsmul xs c h, nsmul_eq_mul, mul_comm]
  exact mul_div_cancel_right₀ c hlen

/-- C5: the compatibility percentage computed from a nonempty list of
weighted category scores always lies in [0, 100]; it is exactly 100 when
every selected category scores the maximum 5 and exactly 0 when every
selected category scores the minimum 1. -/
theorem compatibility_percentage_bounds (ws : List ℚ) (hne : ws ≠ []) :
    0 ≤ compatibilityPercentage ws ∧ compatibilityPercentage ws ≤ 100 ∧
    ((∀ w ∈ ws, w = 5) → compatibilityPercentage ws = 100) ∧
    ((∀ w ∈ ws, w = 1) → compatibilityPercentage ws = 0) := by
  refine ⟨?_, ?_, ?_, ?_⟩
  · exact le_min (by norm_num) (le_max_left 0 _)
  · exact min_le_left _ _
  · intro h5
    have hmap : ∀ x ∈ ws.map categoryCompat, x = 100 := by
      intro x hx
      obtain ⟨w, hw, rfl⟩ := List.mem_map.mp hx
      rw [h5 w hw]
      norm_num [categoryCompat]
    have hmapne : ws.map categoryCompat ≠ [] := by simpa using hne
    rw [compatibilityPercentage, meanList_const _ 100 hmapne hmap]
    norm_num [clampPct]
  · intro h1
    have hmap : ∀ x ∈ ws.map categoryCompat, x = 0 := by
      intro x hx
      obtain ⟨w, hw, rfl⟩ := List.mem_map.mp hx
      rw [h1 w hw]
      norm_num [categoryCompat]
    have hmapne : ws.map categoryCompat ≠ [] := by simpa using hne
    rw [compatibilityPercentage, meanList_const _ 0 hmapne hmap]
    norm_num [clampPct]

/-- Witness for C5 on the singleton selections `[5]` and `[1]`. -/
theorem compatibility_percentage_bounds_witness :
    compatibilityPercentage [5] = 100 ∧ compatibilityPercentage [1] = 0 := by
  have h5 := compatibility_percentage_bounds [5] (by simp)
  have h1 := compatibility_percentage_bounds [1] (by simp)
  exact ⟨h5.2.2.1 (by intro w hw; simpa using hw), h1.2.2.2 (by intro w hw; simpa using hw)⟩

/-- Byte-free character-list test: the first list occurs at the head of the
second. -/
def charsStartWith : List Char → List Char → Bool
  | [], _ => true
  | _ :: _, [] => false
  | a :: as, b :: bs => a == b && charsStartWith as bs

/-- The first character list occurs contiguously somewhere in the second. -/
def charsContain (needle : List Char) : List Char → Bool
  | [] => needle.isEmpty
  | b :: bs => charsStartWith needle (b :: bs) || charsContain needle bs

/-- Lower-case every character of a list. -/
def lowerChars (l : List Char) : List Char := l.map Char.toLower

/-- Modelled from the spec: the Interest Matcher is missing from the shipped
sources.  A tag matches a project when the text of the tag occurs within the
title of the project, case-insensitively. -/
def tagMatchesProject (tag title : String) : Bool :=
  charsContain (lowerChars tag.data) (lowerChars title.data)

/-- Modelled from the spec: a tag matches when it matches at least one
project of the faculty. -/
def tagMatchesAny (tag : String) (projects : List String) : Bool :=
  projects.any fun title => tagMatchesProject tag title

/-- Modelled from the spec: the interest tags of the student that match at
least one project of the faculty. -/
def matchedTopics (tags projects : List String) : List String :=
  tags.filter fun tag => tagMatchesAny tag projects

/-- Modelled from the spec: `matchCount` counts matching tags, not
tag/project pairs. -/
def matchCount (tags projects : List String) : ℕ :=
  (matchedTopics tags projects).length

/-- C7: `matchCount` equals the number of interest tags that match at least
one project (bounded by the number of tags, never the number of tag/project
pairs); in the documented scenario with projects "Deep Learning for Vision"
and "Robotics in Manufacturing" and tags "Robotics" and "Blockchain", the
count is 1, the matched topic is "Robotics" via the second title, and
"Blockchain" matches nothing. -/
theorem match_count_per_tag_and_scenario :
    (∀ tags projects : List String,
        matchCount tags projects
          = (tags.filter fun tag =>
              decide (∃ title ∈ projects, tagMatchesProject tag title = true)).length) ∧
    (∀ tags projects : List String, matchCount tags projects ≤ tags.length) ∧
    matchCount ["Robotics", "Blockchain"]
        ["Deep Learning for Vision", "Robotics in Manufacturing"] = 1 ∧
    matchedTopics ["Robotics", "Blockchain"]
        ["Deep Learning for Vision", "Robotics in Manufacturing"] = ["Robotics"] ∧
    tagMatchesProject "Robotics" "Robotics in Manufacturing" = true ∧
    tagMatchesAny "Blockchain"
        ["Deep Learning for Vision", "Robotics in Manufacturing"] = false := by
  refine ⟨?_, ?_, by decide, by decide, by decide, by decide⟩
  · intro tags projects
    unfold matchCount matchedTopics
    congr 1
    apply List.filter_congr
    intro tag _
    rw [Bool.eq_iff_iff]
    simp [tagMatchesAny, List.any_eq_true]
  · intro tags projects
    exact List.length_filter_le _ _

/-- Embedded from `StudentDashboard` (src/unnamed/part_000): the search box
switches the list to search results when nonempty. -/
def showSearch (searchQuery : String) : Bool := decide (0 < searchQuery.length)

/-- Embedded from `StudentDashboard`: interest mode flag,
`aiInterests.length > 0 && preferences.length === 0`. -/
def showAiRecommendations (preferences aiInterests : List String) : Bool :=
  decide (0 < aiInterests.length) && decide (preferences.length = 0)

/-- Embedded from `StudentDashboard`: rating-preference mode flag,
`preferences.length > 0 && aiInterests.length === 0`. -/
def showRatingRecommendations (preferences aiInterests : List String) : Bool :=
  decide (0 < preferences.length) && decide (aiInterests.length = 0)

/-- Embedded from `StudentDashboard`: mixed mode flag,
`preferences.length > 0 && aiInterests.length > 0`. -/
def showMixedRecommendations (preferences aiInterests : List String) : Bool :=
  decide (0 < preferences.length) && decide (0 < aiInterests.length)

/-- Embedded from `StudentDashboard`: the plain directory listing is shown
when no search text and none of the three recommendation modes applies. -/
def showAllFaculty (searchQuery : String) (preferences aiInterests : List String) : Bool :=
  !showSearch searchQuery && !showAiRecommendations preferences aiInterests &&
    !showRatingRecommendations preferences aiInterests &&
    !showMixedRecommendations preferences aiInterests

/-- C4: the recommendation mode is selected exactly by the emptiness of the
two preference sets: rating-preference mode iff preferences nonempty and
interests empty, interest mode iff interests nonempty and preferences empty,
mixed mode iff both nonempty, and (with no search text) the plain directory
iff both empty; a student with `preferences = [teaching]` and no interests is
in rating-preference mode, and adding the interest `Robotics` switches them
to mixed mode. -/
theorem recommendation_mode_selection (preferences aiInterests : List String) :
    (showRatingRecommendations preferences aiInterests = true ↔
        preferences ≠ [] ∧ aiInterests = []) ∧
    (showAiRecommendations preferences aiInterests = true ↔
        aiInterests ≠ [] ∧ preferences = []) ∧
    (showMixedRecommendations preferences aiInterests = true ↔
        preferences ≠ [] ∧ aiInterests ≠ []) ∧
    (showAllFaculty "" preferences aiInterests = true ↔
        preferences = [] ∧ aiInterests = []) ∧
    showRatingRecommendations ["teaching"] [] = true ∧
    showMixedRecommendations ["teaching"] ["Robotics"] = true ∧
    showRatingRecommendations ["teaching"] ["Robotics"] = false ∧
    showAiRecommendations ["teaching"] ["Robotics"] = false := by
  refine ⟨?_, ?_, ?_, ?_, by decide, by decide, by decide, by decide⟩
  · rw [showRatingRecommendations]
    simp [List.length_pos, List.length_eq_zero, and_comm]
  · rw [showAiRecommendations]
    simp [List.length_pos, List.length_eq_zero, and_comm]
  · rw [showMixedRecommendations]
    simp [List.length_pos]
  · rw [showAllFaculty, showSearch, showAiRecommendations, showRatingRecommendations,
      showMixedRecommendations]
    simp [List.length_pos, List.length_eq_zero]
    tauto

/-- A rating submission: one optional integer value per category, as posted
by the rating form. -/
structure RatingSubmission where
  overall : Option ℤ
  teaching : Option ℤ
  attendance : Option ℤ
  doubt_clarification : Option ℤ
deriving DecidableEq, Repr

/-- The four category values of a submission, in the fixed category order. -/
def submissionValues (r : RatingSubmission) : List (Option ℤ) :=
  [r.overall, r.teaching, r.attendance, r.doubt_clarification]

/-- Modelled from the spec: an absent optional value is fine; a present value
must lie in the closed range [1,5]. -/
def valueInRange (v : Option ℤ) : Bool :=
  match v with
  | none => true
  | some x => decide (1 ≤ x) && decide (x ≤ 5)

/-- Modelled from the spec: a valid submission has `overall` present and all
present values in [1,5]. -/
def validSubmission (r : RatingSubmission) : Bool :=
  r.overall.isSome && (submissionValues r).all valueInRange

/-- One stored rating record, keyed by (student id, faculty id). -/
structure RatingRecord where
  studentId : String
  facultyId : String
  rating : RatingSubmission
deriving DecidableEq, Repr

/-- Modelled from the spec: the Rating Store keeps exactly one live record
per (student, faculty) pair; a resubmission overwrites it in place. -/
def upsertRating (store : List RatingRecord) (sid fid : String) (r : RatingSubmission) :
    List RatingRecord :=
  if store.any fun rec => rec.studentId == sid && rec.facultyId == fid then
    store.map fun rec =>
      if rec.studentId == sid && rec.facultyId == fid then ⟨sid, fid, r⟩ else rec
  else store ++ [⟨sid, fid, r⟩]

/-- Modelled from the spec: the submit-rating operation of the backend is
missing from the shipped sources.  It validates the submission first and only
upserts when validation passes; on failure it returns the store unchanged
together with a validation error surfaced to the caller. -/
def submitRating (store : List RatingRecord) (sid fid : String) (r : RatingSubmission) :
    List RatingRecord × Option String :=
  if validSubmission r then (upsertRating store sid fid r, none)
  else (store, some "Validation error: overall is required and values must lie in [1,5]")

/-- C8: a rating submission with `overall` missing, or with any category
value outside [1,5], is rejected with a validation error and the stored state
is unchanged. -/
theorem invalid_submission_rejected (store : List RatingRecord) (sid fid : String)
    (r : RatingSubmission)
    (h : r.overall = none ∨ ∃ x : ℤ, some x ∈ submissionValues r ∧ (x < 1 ∨ 5 < x)) :
    (submitRating store sid fid r).2.isSome = true ∧
    (submitRating store sid fid r).1 = store := by
  have hvalid : validSubmission r = false := by
    rcases h with hov | ⟨x, hx, hrange⟩
    · simp [validSubmission, hov]
    · apply Bool.eq_false_iff.mpr
      intro hv
      rw [validSubmission, Bool.and_eq_true] at hv
      have hall := hv.2
      have hbad : valueInRange (some x) = false := by
        rcases hrange with h1 | h1 <;> simp [valueInRange] <;> omega
      have hx' := List.all_eq_true.mp hall (some x) hx
      rw [hbad] at hx'
      exact Bool.false_ne_true hx'
  simp [submitRating, hvalid]

/-- Witness for C8: the all-empty submission is rejected and an empty store
stays empty. -/
theorem invalid_submission_rejected_witness :
    (submitRating [] "s1" "f1" ⟨none, none, none, none⟩).2.isSome = true ∧
    (submitRating [] "s1" "f1" ⟨none, none, none, none⟩).1 = [] :=
  invalid_submission_rejected [] "s1" "f1" ⟨none, none, none, none⟩ (Or.inl rfl)

/-- JavaScript truthiness of an optional number: `undefined`, `null` and `0`
are falsy. -/
def jsTruthyNat (v : Option ℕ) : Bool :=
  match v with
  | none => false
  | some n => n != 0

/-- Embedded from `handleRatingSubmit` (FacultyProfile.jsx): the handler
returns early with an error toast when `tempRatings.overall` is falsy, and
posts the payload otherwise. -/
def handleRatingSubmitPosts (overall : Option ℕ) : Bool := jsTruthyNat overall

/-- The local star-widget state of the faculty profile page: one optional
value per category. -/
structure TempRatings where
  overall : Option ℕ
  teaching : Option ℕ
  attendance : Option ℕ
  doubt_clarification : Option ℕ
deriving DecidableEq, Repr

/-- Embedded from `renderStars` (FacultyProfile.jsx): the five clickable
stars carry the values 1 through 5. -/
def starValues : List ℕ := [1, 2, 3, 4, 5]

/-- Embedded from `renderStars`: clicking a star stores its value under the
widget category, `setTempRatings(prev => ({ ...prev, [category]: star }))`. -/
def setStar (t : TempRatings) (c : Category) (star : ℕ) : TempRatings :=
  match c with
  | .overall => ⟨some star, t.teaching, t.attendance, t.doubt_clarification⟩
  | .teaching => ⟨t.overall, some star, t.attendance, t.doubt_clarification⟩
  | .attendance => ⟨t.overall, t.teaching, some star, t.doubt_clarification⟩
  | .doubt_clarification => ⟨t.overall, t.teaching, t.attendance, some star⟩

/-- The widget state before any click, when the student has no stored
rating. -/
def initialTempRatings : TempRatings := ⟨none, none, none, none⟩

/-- A sequence of star clicks applied left to right. -/
def applyStarClicks (t : TempRatings) (clicks : List (Category × ℕ)) : TempRatings :=
  clicks.foldl (fun acc p => setStar acc p.1 p.2) t

/-- An optional value that, when present, lies in the star range [1,5]. -/
def goodOpt (v : Option ℕ) : Prop := ∀ n : ℕ, v = some n → 1 ≤ n ∧ n ≤ 5

/-- Every present value of the widget state lies in the star range. -/
def goodTemp (t : TempRatings) : Prop :=
  goodOpt t.overall ∧ goodOpt t.teaching ∧ goodOpt t.attendance ∧
    goodOpt t.doubt_clarification

theorem goodOpt_some {s : ℕ} (h1 : 1 ≤ s) (h5 : s ≤ 5) : goodOpt (some s) := by
  intro n hn
  injection hn with h
  omega

theorem goodTemp_setStar {t : TempRatings} (ht : goodTemp t) {c : Category} {s : ℕ}
    (hs : s ∈ starValues) : goodTemp (setStar t c s) := by
  have hr : 1 ≤ s ∧ s ≤ 5 := by
    simp [starValues] at hs
    omega
  obtain ⟨h1, h2, h3, h4⟩ := ht
  cases c
  case overall => exact ⟨goodOpt_some hr.1 hr.2, h2, h3, h4⟩
  case teaching => exact ⟨h1, goodOpt_some hr.1 hr.2, h3, h4⟩
  case attendance => exact ⟨h1, h2, goodOpt_some hr.1 hr.2, h4⟩
  case doubt_clarification => exact ⟨h1, h2, h3, goodOpt_some hr.1 hr.2⟩

theorem goodTemp_applyStarClicks {t : TempRatings} (ht : goodTemp t)
    {clicks : List (Category × ℕ)} (hcl : ∀ p ∈ clicks, p.2 ∈ starValues) :
    goodTemp (applyStarClicks t clicks) := by
  induction clicks generalizing t with
  | nil => simpa [applyStarClicks] using ht
  | cons p ps ih =>
    show goodTemp (applyStarClicks (setStar t p.1 p.2) ps)
    exact ih (goodTemp_setStar ht (hcl p (by simp))) fun q hq => hcl q (by simp [hq])

/-- C9: starting from the empty widget state, any sequence of star clicks
(whose values are the five star values of `renderStars`) leaves every present
category value an integer in [1,5]; and whenever the submit guard of
`handleRatingSubmit` lets the payload be posted, `overall` is present with a
value in [1,5]. -/
theorem star_widget_payload_valid (clicks : List (Category × ℕ))
    (hclicks : ∀ p ∈ clicks, p.2 ∈ starValues) :
    goodTemp (applyStarClicks initialTempRatings clicks) ∧
    (handleRatingSubmitPosts (applyStarClicks initialTempRatings clicks).overall = true →
      ∃ n : ℕ, (applyStarClicks initialTempRatings clicks).overall = some n ∧
        1 ≤ n ∧ n ≤ 5) := by
  have hinit : goodTemp initialTempRatings := by
    refine ⟨?_, ?_, ?_, ?_⟩ <;> exact fun n hn => Option.noConfusion hn
  have hgood : goodTemp (applyStarClicks initialTempRatings clicks) :=
    goodTemp_applyStarClicks hinit hclicks
  refine ⟨hgood, ?_⟩
  intro hpost
  rcases hov : (applyStarClicks initialTempRatings clicks).overall with _ | n
  · rw [hov] at hpost
    simp [handleRatingSubmitPosts, jsTruthyNat] at hpost
  · exact ⟨n, rfl, hgood.1 n hov⟩

/-- Witness for C9 on the single click setting `overall` to five stars. -/
theorem star_widget_payload_valid_witness :
    goodTemp (applyStarClicks initialTempRatings [(Category.overall, 5)]) ∧
    (handleRatingSubmitPosts
        (applyStarClicks initialTempRatings [(Category.overall, 5)]).overall = true →
      ∃ n : ℕ, (applyStarClicks initialTempRatings [(Category.overall, 5)]).overall = some n ∧
        1 ≤ n ∧ n ≤ 5) :=
  star_widget_payload_valid [(Category.overall, 5)] (by decide)

/-- Embedded from `FacultyProfile` (FacultyProfile.jsx): the comment box is
`disabled={!myRating && user}` and `readOnly={!user}`. -/
def commentInputDisabled (user myRating : Bool) : Bool := !myRating && user

/-- Embedded from `FacultyProfile`: the comment box read-only flag. -/
def commentInputReadOnly (user : Bool) : Bool := !user

/-- Embedded from `FacultyProfile`: the post-comment button is
`disabled={!myRating && user}`. -/
def postCommentDisabled (user myRating : Bool) : Bool := !myRating && user

/-- Embedded from `FacultyProfile`: each reply button is
`disabled={!user || !myRating}`. -/
def replyButtonDisabled (user myRating : Bool) : Bool := !user || !myRating

/-- C10: for a logged-in user with no stored rating for the faculty member,
the comment input, the post-comment button and every reply button are
disabled; conversely a logged-in user for whom the post button or a reply
button is enabled must have a stored rating. -/
theorem comment_gated_on_rating :
    (∀ myRating : Bool, myRating = false →
        commentInputDisabled true myRating = true ∧
        postCommentDisabled true myRating = true ∧
        replyButtonDisabled true myRating = true) ∧
    (∀ myRating : Bool, postCommentDisabled true myRating = false → myRating = true) ∧
    (∀ myRating : Bool, replyButtonDisabled true myRating = false → myRating = true) := by
  decide

/-- Witness for C10 at a logged-in user with no stored rating. -/
theorem comment_gated_on_rating_witness :
    commentInputDisabled true false = true ∧
    postCommentDisabled true false = true ∧
    replyButtonDisabled true false = true :=
  comment_gated_on_rating.1 false rfl

end FacultyHub
